import Mathlib

/-!
Verification of the srba `RbaEngine` header (`include/srba/RbaEngine.h`) against
its natural-language specification.

The engine is a C++ class template; the parts below are shallow embeddings of
the concrete members declared and defined in the header (robust kernel, the
`VisitorOptimizeLocalArea` visitor, the `clear()` methods of the output
structs), together with models of operations whose implementation files
(`impl/*.h`) are not part of the source tree; those models are built from the
specification text and are marked `Modelled from the spec:` in their doc
comments.

Conventions: C++ unsigned integer ids (`TKeyFrameID`, `TLandmarkID`, edge ids,
`topo_dist_t`) are embedded as `Nat`; `double` values whose numeric behaviour
is irrelevant to the claims are embedded as `ℚ`; real-valued formulas (the
Huber kernel) use `ℝ`.  Fallible operations return an `Except` outcome paired
with the post-state.
-/

/-! ## Robust kernel (RbaEngine.h lines 793-797) -/

/-- `mrpt::utils::square`. -/
noncomputable def square (x : ℝ) : ℝ := x * x

/-- Embedding of `RbaEngine::huber_kernel` from the source:
`std::abs(2*square(kernel_param)*(std::sqrt(1+square(delta/kernel_param))-1))`. -/
noncomputable def huber_kernel (delta : ℝ) (kernel_param : ℝ) : ℝ :=
  |2 * square kernel_param * (Real.sqrt (1 + square (delta / kernel_param)) - 1)|

/-! ## Optimizer output structs and their `clear()` methods -/

/-- Embedding of `RbaEngine::TOptimizeExtraOutputInfo` (all data members). -/
structure TOptimizeExtraOutputInfo where
  num_observations : Nat
  num_jacobians : Nat
  num_kf2kf_edges_optimized : Nat
  num_kf2lm_edges_optimized : Nat
  num_total_scalar_optimized : Nat
  num_kf_optimized : Nat
  num_lm_optimized : Nat
  num_span_tree_numeric_updates : Nat
  obs_rmse : ℚ
  total_sqr_error_init : ℚ
  total_sqr_error_final : ℚ
  HAp_condition_number : ℚ
  sparsity_dh_dAp_nnz : Nat
  sparsity_dh_dAp_max_size : Nat
  sparsity_dh_df_nnz : Nat
  sparsity_dh_df_max_size : Nat
  sparsity_HAp_nnz : Nat
  sparsity_HAp_max_size : Nat
  sparsity_Hf_nnz : Nat
  sparsity_Hf_max_size : Nat
  sparsity_HApf_nnz : Nat
  sparsity_HApf_max_size : Nat
  optimized_k2k_edge_indices : List Nat
  optimized_landmark_indices : List Nat
  extra_results : List ℚ
  deriving DecidableEq

/-- Embedding of `TOptimizeExtraOutputInfo::clear()`: exactly the assignments
appearing in the source body (lines 155-173); `obs_rmse` does not appear there. -/
def TOptimizeExtraOutputInfo.clear (s : TOptimizeExtraOutputInfo) :
    TOptimizeExtraOutputInfo :=
  { s with
    num_observations := 0
    num_jacobians := 0
    num_kf2kf_edges_optimized := 0
    num_kf2lm_edges_optimized := 0
    num_total_scalar_optimized := 0
    num_kf_optimized := 0
    num_lm_optimized := 0
    num_span_tree_numeric_updates := 0
    total_sqr_error_init := 0
    total_sqr_error_final := 0
    HAp_condition_number := 0
    sparsity_dh_dAp_nnz := 0
    sparsity_dh_dAp_max_size := 0
    sparsity_dh_df_nnz := 0
    sparsity_dh_df_max_size := 0
    sparsity_HAp_nnz := 0
    sparsity_HAp_max_size := 0
    sparsity_Hf_nnz := 0
    sparsity_Hf_max_size := 0
    sparsity_HApf_nnz := 0
    sparsity_HApf_max_size := 0
    optimized_k2k_edge_indices := []
    optimized_landmark_indices := []
    extra_results := [] }

/-- Embedding of the default constructor `TOptimizeExtraOutputInfo()`, whose
body only calls `clear()`.  The argument stands for the indeterminate contents
of the members before the constructor body runs. -/
def TOptimizeExtraOutputInfo.mk_default (junk : TOptimizeExtraOutputInfo) :
    TOptimizeExtraOutputInfo :=
  junk.clear

/-- A fully zeroed `TOptimizeExtraOutputInfo` (used when composing structs). -/
def TOptimizeExtraOutputInfo.zero : TOptimizeExtraOutputInfo :=
  { num_observations := 0
    num_jacobians := 0
    num_kf2kf_edges_optimized := 0
    num_kf2lm_edges_optimized := 0
    num_total_scalar_optimized := 0
    num_kf_optimized := 0
    num_lm_optimized := 0
    num_span_tree_numeric_updates := 0
    obs_rmse := 0
    total_sqr_error_init := 0
    total_sqr_error_final := 0
    HAp_condition_number := 0
    sparsity_dh_dAp_nnz := 0
    sparsity_dh_dAp_max_size := 0
    sparsity_dh_df_nnz := 0
    sparsity_dh_df_max_size := 0
    sparsity_HAp_nnz := 0
    sparsity_HAp_max_size := 0
    sparsity_Hf_nnz := 0
    sparsity_Hf_max_size := 0
    sparsity_HApf_nnz := 0
    sparsity_HApf_max_size := 0
    optimized_k2k_edge_indices := []
    optimized_landmark_indices := []
    extra_results := [] }

/-- `static_cast<TKeyFrameID>(-1)` where `TKeyFrameID` is a `w`-bit unsigned
integer type (`srba_types.h` is not in the source tree; the width is kept as a
parameter). -/
def TKeyFrameID_cast_minus_one (w : Nat) : Nat := 2 ^ w - 1

/-- Embedding of `RbaEngine::TNewKeyFrameInfo` (all data members); created
edges are represented by their integer ids. -/
structure TNewKeyFrameInfo where
  kf_id : Nat
  created_edge_ids : List Nat
  optimize_results : TOptimizeExtraOutputInfo
  optimize_results_stg1 : TOptimizeExtraOutputInfo
  deriving DecidableEq

/-- Embedding of `TNewKeyFrameInfo::clear()`: exactly the statements in the
source body (lines 186-191): `kf_id = static_cast<TKeyFrameID>(-1);
created_edge_ids.clear(); optimize_results.clear();`.
`optimize_results_stg1` does not appear there. -/
def TNewKeyFrameInfo.clear (w : Nat) (s : TNewKeyFrameInfo) : TNewKeyFrameInfo :=
  { s with
    kf_id := TKeyFrameID_cast_minus_one w
    created_edge_ids := []
    optimize_results := s.optimize_results.clear }

/-- A concrete `TNewKeyFrameInfo` value used to instantiate theorems. -/
def sampleNKFI : TNewKeyFrameInfo :=
  { kf_id := 3
    created_edge_ids := [0, 1]
    optimize_results := { TOptimizeExtraOutputInfo.zero with obs_rmse := 7 }
    optimize_results_stg1 := { TOptimizeExtraOutputInfo.zero with obs_rmse := 9 } }

/-! ## `optimize_local_area` parameters and the BFS visitor -/

/-- Embedding of `RbaEngine::TOptimizeLocalAreaParams` (lines 213-226). -/
structure TOptimizeLocalAreaParams where
  optimize_k2k_edges : Bool
  optimize_landmarks : Bool
  max_visitable_kf_id : Nat
  dont_optimize_landmarks_seen_less_than_n_times : Nat
  deriving DecidableEq

/-- Embedding of `VisitorOptimizeLocalArea::visit_filter_feat` (lines 562-566):
the body is `return false;` for every landmark and distance. -/
def visit_filter_feat (lm_ID : Nat) (cur_dist : Nat) : Bool :=
  false

/-- Embedding of `VisitorOptimizeLocalArea::visit_filter_kf` (lines 575-579):
the body is `return (kf_ID<=params.max_visitable_kf_id);`. -/
def visit_filter_kf (params : TOptimizeLocalAreaParams) (kf_ID : Nat)
    (cur_dist : Nat) : Bool :=
  decide (kf_ID ≤ params.max_visitable_kf_id)

/-- Embedding of `VisitorOptimizeLocalArea::visit_filter_k2f` (lines 606-611):
the body is `return params.optimize_landmarks;`. -/
def visit_filter_k2f (params : TOptimizeLocalAreaParams) : Bool :=
  params.optimize_landmarks

/-- The fields of a `k2f_edge_t` read by `visit_k2f`: the cached known-position
flag and the observed landmark id (`edge->obs.obs.feat_id`). -/
structure k2f_edge_t where
  feat_has_known_rel_pos : Bool
  feat_id : Nat
  deriving DecidableEq

/-- The mutable state of `VisitorOptimizeLocalArea` touched by `visit_k2f`:
the `lm_times_seen` map (absent keys read as `0`, as with `std::map`'s
`operator[]`) and the `lm_IDs_to_optimize` output list. -/
structure VisitorState where
  lm_times_seen : Nat → Nat
  lm_IDs_to_optimize : List Nat

/-- The visitor state at construction: empty map, empty list. -/
def initVisitorState : VisitorState :=
  { lm_times_seen := fun _ => 0, lm_IDs_to_optimize := [] }

/-- Embedding of `VisitorOptimizeLocalArea::visit_k2f` (lines 612-622):
if the landmark has no known relative position, pre-increment its
`lm_times_seen` entry and append it to `lm_IDs_to_optimize` exactly when the
incremented count equals
`params.dont_optimize_landmarks_seen_less_than_n_times`. -/
def visit_k2f (params : TOptimizeLocalAreaParams) (st : VisitorState)
    (edge : k2f_edge_t) : VisitorState :=
  if edge.feat_has_known_rel_pos then st
  else
    let lm_ID := edge.feat_id
    let c := st.lm_times_seen lm_ID + 1
    { lm_times_seen := fun i => if i = lm_ID then c else st.lm_times_seen i
      lm_IDs_to_optimize :=
        if c = params.dont_optimize_landmarks_seen_less_than_n_times then
          st.lm_IDs_to_optimize ++ [lm_ID]
        else st.lm_IDs_to_optimize }

/-- The k2f edges met by the BFS are dispatched through `visit_filter_k2f`
before `visit_k2f` runs, as in `bfs_visitor` (visits happen only when the
filter accepts). -/
def runK2F (params : TOptimizeLocalAreaParams) (st : VisitorState)
    (es : List k2f_edge_t) : VisitorState :=
  es.foldl (fun s e => if visit_filter_k2f params then visit_k2f params s e else s) st

/-- Number of times a landmark is seen among a sequence of k2f edges, counting
only edges without a known relative position (the ones `visit_k2f` counts). -/
def timesSeenRelevant (lm : Nat) (es : List k2f_edge_t) : Nat :=
  (es.filter (fun e => !e.feat_has_known_rel_pos && e.feat_id == lm)).length

/-! ## `bfs_visitor` node expansion (C8)

`bfs_visitor` itself lives in `impl/bfs_visitor.h`, which is not in the source
tree.  The model below follows its declaration in the header (lines 382-398):
"Visits all k2k & k2f edges following a BFS starting at a given starting node
and up to a given maximum depth.  Only k2k edges are considered for BFS
paths.", with each candidate node gated by the corresponding visit filter. -/

/-- A node met by `bfs_visitor`: a keyframe or a landmark (feature). -/
inductive BFSNode where
  | kf (id : Nat)
  | feat (id : Nat)
  deriving DecidableEq

/-- `true` exactly on keyframe nodes. -/
def BFSNode.isKF : BFSNode → Bool
  | .kf _ => true
  | .feat _ => false

/-- The graph explored by `bfs_visitor`: kf2kf edges (pairs of keyframe ids)
and kf2f edges (keyframe id, landmark id). -/
structure RbaGraph where
  k2k : List (Nat × Nat)
  k2f : List (Nat × Nat)

/-- Keyframe neighbours of `u` through the undirected kf2kf edges. -/
def k2kNeighbors (g : RbaGraph) (u : Nat) : List Nat :=
  g.k2k.filterMap (fun e => if e.1 = u then some e.2 else none) ++
  g.k2k.filterMap (fun e => if e.2 = u then some e.1 else none)

/-- Landmarks observed from keyframe `u` (its kf2f edges). -/
def k2fFeats (g : RbaGraph) (u : Nat) : List Nat :=
  g.k2f.filterMap (fun e => if e.1 = u then some e.2 else none)

/-- Modelled from the spec: one BFS expansion step of `bfs_visitor`
(`impl/bfs_visitor.h` is not in the source tree).  A keyframe node offers its
kf2kf neighbours (gated by the keyframe filter) and its observed landmarks
(gated by the feature filter); a feature node offers nothing, since only k2k
edges are considered for BFS paths. -/
def expandNode (g : RbaGraph) (featFilter kfFilter : Nat → Nat → Bool)
    (d : Nat) : BFSNode → List BFSNode
  | .kf u =>
      ((k2kNeighbors g u).filter (fun v => kfFilter v d)).map BFSNode.kf ++
      ((k2fFeats g u).filter (fun lm => featFilter lm d)).map BFSNode.feat
  | .feat _ => []

/-- Modelled from the spec: the BFS frontier evolution of `bfs_visitor`,
collecting every node placed on the queue, level by level, up to the given
maximum depth. -/
def bfsRun (g : RbaGraph) (featFilter kfFilter : Nat → Nat → Bool) :
    List BFSNode → Nat → Nat → List BFSNode
  | frontier, _, 0 => frontier
  | frontier, d, fuel + 1 =>
      frontier ++
      bfsRun g featFilter kfFilter
        ((frontier.map (expandNode g featFilter kfFilter (d + 1))).flatten)
        (d + 1) fuel

/-- Modelled from the spec: all nodes visited by `bfs_visitor(root, maxDist)`,
starting from the root keyframe. -/
def bfs_visitor (g : RbaGraph) (featFilter kfFilter : Nat → Nat → Bool)
    (root_id : Nat) (max_distance : Nat) : List BFSNode :=
  bfsRun g featFilter kfFilter [BFSNode.kf root_id] 0 max_distance

/-! ## `add_observation` (C6) -/

/-- The error kinds named by the specification for state-corrupting failures
of `add_observation`. -/
inductive RbaError where
  | DuplicateKnownLandmark
  | MissingInitialGuess
  deriving DecidableEq

/-- The data of one observation passed to `add_observation`: the observed
landmark id and the raw observation vector. -/
structure Observation where
  feat_id : Nat
  obs_data : List ℚ
  deriving DecidableEq

/-- The slice of `TRBA_Problem_state` touched by `add_observation`: the maps
of known- and unknown-position landmarks (id, relative position) and the
global observation list. -/
structure RbaProblemState where
  known_lms : List (Nat × List ℚ)
  unknown_lms : List (Nat × List ℚ)
  all_observations : List (Nat × Observation)
  deriving DecidableEq

/-- Landmark ids present in a landmark map. -/
def keysOf (l : List (Nat × List ℚ)) : List Nat := l.map Prod.fst

/-- Modelled from the spec: `RbaEngine::add_observation`
(`impl/add-observations.h` is not in the source tree).  Per §4.1 and the
header doc (lines 504-524): a landmark may be asserted known-position
(`fixed_relative_position` non-null) only once, or the call fails with
`DuplicateKnownLandmark`; the first observation of an unknown-position
landmark must supply `unknown_relative_position_init_val`, or the call fails
with `MissingInitialGuess`; failures abort with no state mutation; on success
the observation is appended and its 0-based global index returned. -/
def add_observation (st : RbaProblemState) (observing_kf_id : Nat)
    (new_obs : Observation)
    (fixed_relative_position : Option (List ℚ))
    (unknown_relative_position_init_val : Option (List ℚ)) :
    Except RbaError Nat × RbaProblemState :=
  let lm := new_obs.feat_id
  match fixed_relative_position with
  | some p =>
      if lm ∈ keysOf st.known_lms then
        (Except.error RbaError.DuplicateKnownLandmark, st)
      else
        (Except.ok st.all_observations.length,
         { st with
           known_lms := st.known_lms ++ [(lm, p)]
           all_observations := st.all_observations ++ [(observing_kf_id, new_obs)] })
  | none =>
      if lm ∈ keysOf st.known_lms ∨ lm ∈ keysOf st.unknown_lms then
        (Except.ok st.all_observations.length,
         { st with
           all_observations := st.all_observations ++ [(observing_kf_id, new_obs)] })
      else
        match unknown_relative_position_init_val with
        | none => (Except.error RbaError.MissingInitialGuess, st)
        | some p0 =>
            (Except.ok st.all_observations.length,
             { st with
               unknown_lms := st.unknown_lms ++ [(lm, p0)]
               all_observations := st.all_observations ++ [(observing_kf_id, new_obs)] })

/-! ## `define_new_keyframe` (C7) -/

/-- The slice of the engine state relevant to keyframe/edge allocation:
keyframes are dense ids `0..num_kfs-1`, kf2kf edges a dense-indexed list. -/
structure EngineState where
  num_kfs : Nat
  k2k_edges : List (Nat × Nat)
  deriving DecidableEq

/-- Embedding of `RbaEngine::alloc_keyframe` (declared at line 333): appends an
empty keyframe and returns its id (ids are dense, starting at 0). -/
def alloc_keyframe (st : EngineState) : Nat × EngineState :=
  (st.num_kfs, { st with num_kfs := st.num_kfs + 1 })

/-- Modelled from the spec: `RbaEngine::define_new_keyframe`
(`impl/define_new_keyframe.h` is not in the source tree).  Per §4.8: allocate
the keyframe, ask the edge-creation policy for the kf2kf edges to create,
allocate each of them (dense edge ids continue the existing numbering), and
report the new keyframe id and created edge ids in `TNewKeyFrameInfo`. -/
def define_new_keyframe (policy : Nat → EngineState → List (Nat × Nat))
    (st : EngineState) : TNewKeyFrameInfo × EngineState :=
  let allocated := alloc_keyframe st
  let new_kf_id := allocated.1
  let st1 := allocated.2
  let new_edges := policy new_kf_id st1
  let edge_ids := (List.range new_edges.length).map (fun i => st1.k2k_edges.length + i)
  ({ kf_id := new_kf_id
     created_edge_ids := edge_ids
     optimize_results := TOptimizeExtraOutputInfo.zero
     optimize_results_stg1 := TOptimizeExtraOutputInfo.zero },
   { st1 with k2k_edges := st1.k2k_edges ++ new_edges })

/-- Modelled from the spec: the linear-graph edge-creation policy of §4.6,
producing the single edge `new_kf → new_kf − 1` (and nothing for keyframe 0,
which has no predecessor). -/
def ecp_linear_graph (new_kf_id : Nat) (st : EngineState) : List (Nat × Nat) :=
  if new_kf_id = 0 then [] else [(new_kf_id, new_kf_id - 1)]

/-! ## Levenberg-Marquardt accept/reject step (C2) -/

/-- The state carried across LM iterations: the vector of unknowns and the
damping factor λ. -/
structure LMState where
  x : List ℚ
  lam : ℚ
  deriving DecidableEq

/-- Modelled from the spec: steps 9-10 of one LM iteration in §4.5
(`impl/lev-marq_solvers.h` is not in the source tree).  Given the total
squared residual function `err`, the trial unknowns and the predicted
reduction of the quadratic model, compute `ρ = (E − E')/predicted_reduction`;
if `ρ > 0` accept the trial (and shrink λ by ×0.1), otherwise reject it,
reverting the unknowns (and growing λ by ×10). -/
def lm_iteration (err : List ℚ → ℚ) (s : LMState) (x_trial : List ℚ)
    (predicted_reduction : ℚ) : LMState :=
  if 0 < (err s.x - err x_trial) / predicted_reduction then
    { x := x_trial, lam := s.lam / 10 }
  else { x := s.x, lam := s.lam * 10 }

/-- Total squared residual of a vector of scalar residuals (used to
instantiate `lm_iteration` on concrete inputs). -/
def errSq (l : List ℚ) : ℚ := l.foldl (fun a b => a + b * b) 0

/-! ## Bounded-depth spanning trees (C1)

`update_symbolic_new_node` lives in `impl/spantree_update_symbolic.h`, which is
not in the source tree.  Per §4.2 of the specification it maintains, for every
root keyframe, the bounded-depth shortest-path tree of the undirected kf2kf
graph: each reachable keyframe within `max_tree_depth` edges gets a
predecessor edge and a topological distance, ties between equal-distance
predecessors broken by lowest predecessor keyframe id.  The model below
computes exactly those entries from the edge list. -/

/-- `true` when `u` and `v` are the two endpoints of some kf2kf edge
(edge direction is ignored, as in the engine's BFS). -/
def adjacent (es : List (Nat × Nat)) (u v : Nat) : Bool :=
  es.any (fun e => (e.1 == u && e.2 == v) || (e.1 == v && e.2 == u))

/-- All keyframes sharing an edge with `v` (undirected). -/
def nbrs (es : List (Nat × Nat)) (v : Nat) : List Nat :=
  es.filterMap (fun e => if e.1 = v then some e.2 else none) ++
  es.filterMap (fun e => if e.2 = v then some e.1 else none)

/-- The keyframes reachable from `r` in at most `k` undirected hops. -/
def ball (es : List (Nat × Nat)) (r : Nat) : Nat → List Nat
  | 0 => [r]
  | k + 1 => ball es r k ++ ((ball es r k).map (nbrs es)).flatten

/-- `pathLen es u v n` holds when the undirected kf2kf graph has a walk of
exactly `n` edges from `u` to `v`. -/
def pathLen (es : List (Nat × Nat)) (u v : Nat) : Nat → Prop
  | 0 => u = v
  | n + 1 => ∃ w, pathLen es u w n ∧ adjacent es w v = true

/-- Least index at or after `i` satisfying `p`, searching `fuel` indices. -/
def leastFrom (p : Nat → Bool) : Nat → Nat → Option Nat
  | _, 0 => none
  | i, fuel + 1 => if p i then some i else leastFrom p (i + 1) fuel

/-- Least element of a list of naturals, if any (the tie-breaking rule of the
specification: lowest candidate keyframe id). -/
def minList : List Nat → Option Nat
  | [] => none
  | x :: xs =>
      match minList xs with
      | none => some x
      | some m => some (Nat.min x m)

/-- The topological distance recorded in the spanning tree of root `r` for the
keyframe `v`: the least `k ≤ D` with `v` reachable in `k` hops, absent when
`v` is farther than the depth bound `D`. -/
def treeDist (es : List (Nat × Nat)) (D : Nat) (r v : Nat) : Option Nat :=
  leastFrom (fun k => decide (v ∈ ball es r k)) 0 (D + 1)

/-- The predecessor recorded in the spanning tree of root `r` for keyframe
`v`: the lowest-id neighbour of `v` lying one hop closer to the root. -/
def treePred (es : List (Nat × Nat)) (D : Nat) (r v : Nat) : Option Nat :=
  match treeDist es D r v with
  | some (k + 1) => minList ((nbrs es v).filter (fun u => decide (u ∈ ball es r k)))
  | _ => none

/-- Modelled from the spec: the spanning-tree entry `(dist, pred)` for root
`r` and keyframe `v` after `update_symbolic_new_node`
(`impl/spantree_update_symbolic.h` is not in the source tree).  Per §4.2 the
symbolic trees are, after every update, the bounded-depth shortest-path trees
of the current kf2kf graph, with ties broken by lowest predecessor id. -/
def update_symbolic_new_node (es : List (Nat × Nat)) (D : Nat) (r v : Nat) :
    Option (Nat × Option Nat) :=
  match treeDist es D r v with
  | none => none
  | some d => some (d, treePred es D r v)

/-! ## Theorems -/

/-- C9: `TOptimizeExtraOutputInfo::clear()` resets every counter, both squared
error totals, the condition number, all sparsity statistics, both index
vectors and `extra_results` to zero/empty, but leaves `obs_rmse` unchanged;
hence the default constructor (which only calls `clear()`) never initializes
`obs_rmse`. -/
theorem TOptimizeExtraOutputInfo_clear_frame (s : TOptimizeExtraOutputInfo) :
    s.clear =
      { num_observations := 0
        num_jacobians := 0
        num_kf2kf_edges_optimized := 0
        num_kf2lm_edges_optimized := 0
        num_total_scalar_optimized := 0
        num_kf_optimized := 0
        num_lm_optimized := 0
        num_span_tree_numeric_updates := 0
        obs_rmse := s.obs_rmse
        total_sqr_error_init := 0
        total_sqr_error_final := 0
        HAp_condition_number := 0
        sparsity_dh_dAp_nnz := 0
        sparsity_dh_dAp_max_size := 0
        sparsity_dh_df_nnz := 0
        sparsity_dh_df_max_size := 0
        sparsity_HAp_nnz := 0
        sparsity_HAp_max_size := 0
        sparsity_Hf_nnz := 0
        sparsity_Hf_max_size := 0
        sparsity_HApf_nnz := 0
        sparsity_HApf_max_size := 0
        optimized_k2k_edge_indices := []
        optimized_landmark_indices := []
        extra_results := [] } ∧
    (TOptimizeExtraOutputInfo.mk_default s).obs_rmse = s.obs_rmse :=
  ⟨rfl, rfl⟩

/-- C10: `TNewKeyFrameInfo::clear()` sets `kf_id` to
`static_cast<TKeyFrameID>(-1)` — the maximum value of the `w`-bit unsigned
`TKeyFrameID` — empties `created_edge_ids` and clears `optimize_results`,
while leaving `optimize_results_stg1` unchanged. -/
theorem TNewKeyFrameInfo_clear_frame (w : Nat) (s : TNewKeyFrameInfo) :
    (TNewKeyFrameInfo.clear w s).kf_id = 2 ^ w - 1 ∧
    (∀ x, x < 2 ^ w → x ≤ (TNewKeyFrameInfo.clear w s).kf_id) ∧
    (TNewKeyFrameInfo.clear w s).created_edge_ids = [] ∧
    (TNewKeyFrameInfo.clear w s).optimize_results = s.optimize_results.clear ∧
    (TNewKeyFrameInfo.clear w s).optimize_results_stg1 = s.optimize_results_stg1 := by
  refine ⟨rfl, ?_, rfl, rfl, rfl⟩
  intro x hx
  exact Nat.le_pred_of_lt hx

/-- Instantiation of the C10 theorem on a 64-bit `TKeyFrameID` and a concrete
struct value. -/
theorem TNewKeyFrameInfo_clear_frame_witness :
    (TNewKeyFrameInfo.clear 64 sampleNKFI).kf_id = 2 ^ 64 - 1 ∧
    (TNewKeyFrameInfo.clear 64 sampleNKFI).optimize_results_stg1 =
      sampleNKFI.optimize_results_stg1 :=
  ⟨(TNewKeyFrameInfo_clear_frame 64 sampleNKFI).1,
   (TNewKeyFrameInfo_clear_frame 64 sampleNKFI).2.2.2.2⟩

/-- C5: the claim (and the doc comment of `max_visitable_kf_id`, line 217)
says the BFS stops at keyframes with `KF_ID >= max_visitable_kf_id`, but the
filter body (line 578) is `return (kf_ID<=params.max_visitable_kf_id)`: with
`max_visitable_kf_id = 5`, the keyframe with id `5` — equal to the bound, so
required to be excluded — passes the filter and is visited. -/
theorem visit_filter_kf_admits_boundary :
    visit_filter_kf
      { optimize_k2k_edges := true
        optimize_landmarks := true
        max_visitable_kf_id := 5
        dont_optimize_landmarks_seen_less_than_n_times := 2 } 5 0 = true := by
  decide

/-- C3: for every real `delta` and positive `kernel_param`, `huber_kernel`
returns exactly `2·k²·(√(1+(δ/k)²) − 1)` (the `std::abs` in the source is the
identity there, since the expression is nonnegative). -/
theorem huber_kernel_eq_spec (delta kernel_param : ℝ) (hk : 0 < kernel_param) :
    huber_kernel delta kernel_param =
      2 * kernel_param ^ 2 * (Real.sqrt (1 + (delta / kernel_param) ^ 2) - 1) := by
  have h1 : (1 : ℝ) ≤ Real.sqrt (1 + (delta / kernel_param) ^ 2) := by
    have hmono : Real.sqrt 1 ≤ Real.sqrt (1 + (delta / kernel_param) ^ 2) :=
      Real.sqrt_le_sqrt (by nlinarith [sq_nonneg (delta / kernel_param)])
    simpa using hmono
  have h2 : 0 ≤ 2 * kernel_param ^ 2 * (Real.sqrt (1 + (delta / kernel_param) ^ 2) - 1) := by
    have hsq : (0 : ℝ) ≤ kernel_param ^ 2 := sq_nonneg kernel_param
    nlinarith
  simp only [huber_kernel, square, ← pow_two]
  exact abs_of_nonneg h2

/-- Instantiation of the C3 theorem at `delta = 0`, `kernel_param = 1`. -/
theorem huber_kernel_eq_spec_witness : huber_kernel 0 1 = 0 := by
  have h := huber_kernel_eq_spec 0 1 one_pos
  rw [h]
  norm_num

/-- C2: in the LM loop, a trial step is accepted exactly when the reduction
ratio `ρ = (E − E')/predicted_reduction` is positive; on acceptance the new
total squared residual is strictly smaller than before the step, and a
rejected step reverts the unknowns. -/
theorem lm_accept_strict_descent (err : List ℚ → ℚ) (s : LMState)
    (x_trial : List ℚ) (predicted_reduction : ℚ)
    (hpr : 0 < predicted_reduction) :
    (0 < (err s.x - err x_trial) / predicted_reduction →
      lm_iteration err s x_trial predicted_reduction =
        { x := x_trial, lam := s.lam / 10 } ∧
      err x_trial < err s.x) ∧
    (¬ 0 < (err s.x - err x_trial) / predicted_reduction →
      lm_iteration err s x_trial predicted_reduction =
        { x := s.x, lam := s.lam * 10 }) := by
  constructor
  · intro h
    constructor
    · unfold lm_iteration
      rw [if_pos h]
    · rcases div_pos_iff.mp h with ⟨hnum, _⟩ | ⟨_, hden⟩
      · linarith
      · linarith
  · intro h
    unfold lm_iteration
    rw [if_neg h]

/-- Instantiation of the C2 theorem: one concrete accepted LM step, with the
residual squared sum dropping from 1 to 0. -/
theorem lm_accept_strict_descent_witness :
    lm_iteration errSq { x := [1], lam := 1 } [0] 1 = { x := [0], lam := 1 / 10 } ∧
    errSq [0] < errSq [1] :=
  (lm_accept_strict_descent errSq { x := [1], lam := 1 } [0] 1 (by norm_num)).1
    (by norm_num [errSq])

/-- C6: `add_observation` fails with `DuplicateKnownLandmark` whenever a
landmark is asserted known-position (non-null `fixed_relative_position`) while
already recorded as known, fails with `MissingInitialGuess` whenever the first
observation of an unknown-position landmark supplies no initial guess, and in
either case returns with the problem state unchanged. -/
theorem add_observation_error_cases (st : RbaProblemState) (kf : Nat)
    (new_obs : Observation) (fx un : Option (List ℚ)) :
    ((∃ q, fx = some q) → new_obs.feat_id ∈ keysOf st.known_lms →
      add_observation st kf new_obs fx un =
        (Except.error RbaError.DuplicateKnownLandmark, st)) ∧
    (fx = none → un = none →
      new_obs.feat_id ∉ keysOf st.known_lms →
      new_obs.feat_id ∉ keysOf st.unknown_lms →
      add_observation st kf new_obs fx un =
        (Except.error RbaError.MissingInitialGuess, st)) := by
  constructor
  · rintro ⟨q, rfl⟩ hmem
    simp [add_observation, hmem]
  · rintro rfl rfl h1 h2
    simp [add_observation, h1, h2]

/-- Instantiation of the C6 theorem: a landmark already known is asserted
known a second time, and an unseen landmark is observed without any initial
guess; both calls fail with the specified error and return the state intact. -/
theorem add_observation_error_cases_witness :
    add_observation
        { known_lms := [(7, [0])], unknown_lms := [], all_observations := [] }
        0 { feat_id := 7, obs_data := [1] } (some [0]) none =
      (Except.error RbaError.DuplicateKnownLandmark,
       { known_lms := [(7, [0])], unknown_lms := [], all_observations := [] }) ∧
    add_observation
        { known_lms := [], unknown_lms := [], all_observations := [] }
        0 { feat_id := 3, obs_data := [1] } none none =
      (Except.error RbaError.MissingInitialGuess,
       { known_lms := [], unknown_lms := [], all_observations := [] }) :=
  ⟨(add_observation_error_cases _ 0 _ (some [0]) none).1 ⟨[0], rfl⟩
     (by simp [keysOf]),
   (add_observation_error_cases _ 0 _ none none).2 rfl rfl
     (by simp [keysOf]) (by simp [keysOf])⟩

/-- C7: whenever `define_new_keyframe` creates a keyframe with id greater than
0 and the edge-creation policy honours the specification's guarantee of at
least one edge per new keyframe (except keyframe 0), the returned
`TNewKeyFrameInfo.created_edge_ids` is nonempty. -/
theorem define_new_keyframe_creates_edge
    (policy : Nat → EngineState → List (Nat × Nat)) (st : EngineState)
    (hpolicy : ∀ i s, 0 < i → policy i s ≠ [])
    (hpos : 0 < st.num_kfs) :
    (define_new_keyframe policy st).1.kf_id = st.num_kfs ∧
    (define_new_keyframe policy st).1.created_edge_ids ≠ [] := by
  have hne := hpolicy st.num_kfs { st with num_kfs := st.num_kfs + 1 } hpos
  refine ⟨rfl, ?_⟩
  intro hcontra
  simp only [define_new_keyframe, alloc_keyframe] at hcontra
  rw [List.map_eq_nil_iff, List.range_eq_nil] at hcontra
  exact hne (List.eq_nil_of_length_eq_zero hcontra)

/-- Instantiation of the C7 theorem with the linear-graph policy and an engine
holding one prior keyframe: the new keyframe gets id 1 and at least one edge. -/
theorem define_new_keyframe_creates_edge_witness :
    (define_new_keyframe ecp_linear_graph
        { num_kfs := 1, k2k_edges := [] }).1.created_edge_ids ≠ [] :=
  (define_new_keyframe_creates_edge ecp_linear_graph
    { num_kfs := 1, k2k_edges := [] }
    (fun i s hi => by
      have hne : i ≠ 0 := Nat.pos_iff_ne_zero.mp hi
      simp [ecp_linear_graph, hne])
    (by decide)).2

/-- All members of a BFS level reached with the `VisitorOptimizeLocalArea`
feature filter are keyframe nodes: the filter returns `false` on every
landmark, so no feature node ever enters the frontier. -/
theorem bfsRun_all_kf (g : RbaGraph) (kfFilter : Nat → Nat → Bool) :
    ∀ fuel frontier d, (∀ x ∈ frontier, x.isKF = true) →
      ∀ x ∈ bfsRun g visit_filter_feat kfFilter frontier d fuel, x.isKF = true := by
  intro fuel
  induction fuel with
  | zero =>
    intro frontier d h x hx
    exact h x hx
  | succ n ih =>
    intro frontier d h x hx
    rw [bfsRun] at hx
    rcases List.mem_append.mp hx with hx | hx
    · exact h x hx
    · refine ih _ (d + 1) ?_ x hx
      intro y hy
      rcases List.mem_flatten.mp hy with ⟨l, hl, hyl⟩
      rcases List.mem_map.mp hl with ⟨z, hz, rfl⟩
      cases z with
      | kf u =>
        simp only [expandNode, visit_filter_feat, List.filter_false,
          List.map_nil, List.append_nil] at hyl
        rcases List.mem_map.mp hyl with ⟨v, _, rfl⟩
        rfl
      | feat i =>
        simp [expandNode] at hyl

/-- C8: for every graph, keyframe filter, root and radius, the BFS of
`optimize_local_area` never expands a landmark node: every node visited by
`bfs_visitor` under the visitor's feature filter (`visit_filter_feat`, which
rejects every landmark) is a keyframe. -/
theorem bfs_visitor_no_feature_expanded (g : RbaGraph)
    (kfFilter : Nat → Nat → Bool) (root_id max_distance : Nat) :
    (bfs_visitor g visit_filter_feat kfFilter root_id max_distance).all
      BFSNode.isKF = true := by
  rw [List.all_eq_true]
  intro x hx
  refine bfsRun_all_kf g kfFilter max_distance [BFSNode.kf root_id] 0 ?_ x hx
  intro y hy
  rcases List.mem_singleton.mp hy with rfl
  rfl

/-- Fold invariant for `visit_k2f` over a sequence of k2f edges: the
`lm_times_seen` entry of a landmark grows by the number of its
unknown-position edges in the sequence, and its multiplicity in
`lm_IDs_to_optimize` grows by one exactly when the running count crosses the
`dont_optimize_landmarks_seen_less_than_n_times` threshold within the
sequence. -/
theorem visit_k2f_fold_spec (params : TOptimizeLocalAreaParams)
    (hopt : params.optimize_landmarks = true) (lm : Nat) :
    ∀ (es : List k2f_edge_t) (st : VisitorState),
      (runK2F params st es).lm_times_seen lm =
          st.lm_times_seen lm + timesSeenRelevant lm es ∧
      List.count lm (runK2F params st es).lm_IDs_to_optimize =
          List.count lm st.lm_IDs_to_optimize +
          (if st.lm_times_seen lm <
               params.dont_optimize_landmarks_seen_less_than_n_times ∧
             params.dont_optimize_landmarks_seen_less_than_n_times ≤
               st.lm_times_seen lm + timesSeenRelevant lm es
           then 1 else 0) := by
  intro es
  induction es with
  | nil =>
      intro st
      refine ⟨by simp [runK2F, timesSeenRelevant], ?_⟩
      simp only [runK2F, List.foldl_nil, timesSeenRelevant, List.filter_nil,
        List.length_nil, Nat.add_zero]
      rw [if_neg (by omega)]
      omega
  | cons e rest ih =>
      intro st
      have hstep : runK2F params st (e :: rest) =
          runK2F params (visit_k2f params st e) rest := by
        simp [runK2F, visit_filter_k2f, hopt]
      rw [hstep]
      by_cases hkn : e.feat_has_known_rel_pos = true
      · have hvk : visit_k2f params st e = st := by simp [visit_k2f, hkn]
        have htsr : timesSeenRelevant lm (e :: rest) = timesSeenRelevant lm rest := by
          simp [timesSeenRelevant, hkn]
        rw [hvk, htsr]
        exact ih st
      · by_cases heq : e.feat_id = lm
        · have hseen1 : (visit_k2f params st e).lm_times_seen lm =
              st.lm_times_seen lm + 1 := by
            simp [visit_k2f, hkn, heq]
          have htsr : timesSeenRelevant lm (e :: rest) =
              timesSeenRelevant lm rest + 1 := by
            simp [timesSeenRelevant, hkn, heq]
          obtain ⟨ih1, ih2⟩ := ih (visit_k2f params st e)
          rw [hseen1] at ih1 ih2
          constructor
          · rw [ih1, htsr]
            omega
          · rw [ih2, htsr]
            have hout1 : List.count lm (visit_k2f params st e).lm_IDs_to_optimize =
                List.count lm st.lm_IDs_to_optimize +
                (if st.lm_times_seen lm + 1 =
                     params.dont_optimize_landmarks_seen_less_than_n_times
                 then 1 else 0) := by
              by_cases hthr : st.lm_times_seen lm + 1 =
                  params.dont_optimize_landmarks_seen_less_than_n_times
              · simp [visit_k2f, hkn, heq, hthr, List.count_append]
              · simp [visit_k2f, hkn, heq, hthr]
            rw [hout1]
            split_ifs <;> omega
        · have hseen1 : (visit_k2f params st e).lm_times_seen lm =
              st.lm_times_seen lm := by
            simp [visit_k2f, hkn, Ne.symm heq]
          have hcnt1 : List.count lm (visit_k2f params st e).lm_IDs_to_optimize =
              List.count lm st.lm_IDs_to_optimize := by
            by_cases hthr : st.lm_times_seen e.feat_id + 1 =
                params.dont_optimize_landmarks_seen_less_than_n_times
            · simp [visit_k2f, hkn, hthr, List.count_append, List.count_cons,
                Ne.symm heq]
            · simp [visit_k2f, hkn, hthr]
          have htsr : timesSeenRelevant lm (e :: rest) = timesSeenRelevant lm rest := by
            simp [timesSeenRelevant, hkn, heq]
          obtain ⟨ih1, ih2⟩ := ih (visit_k2f params st e)
          rw [hseen1] at ih1 ih2
          rw [hcnt1] at ih2
          exact ⟨by rw [ih1, htsr], by rw [ih2, htsr]⟩

/-- C4: over the k2f edges met by the BFS of `optimize_local_area`, a landmark
id enters `lm_IDs_to_optimize` exactly once — on the visit at which its
running seen-count reaches `dont_optimize_landmarks_seen_less_than_n_times` —
and landmarks seen fewer times than the threshold are never appended.  The
first conjunct counts the final multiplicity over the whole edge sequence
`p ++ q`; the second characterizes, for every split of the sequence, whether
the landmark has already been appended after processing the prefix `p`. -/
theorem visit_k2f_threshold_once (params : TOptimizeLocalAreaParams)
    (lm : Nat) (p q : List k2f_edge_t)
    (hopt : params.optimize_landmarks = true) :
    List.count lm (runK2F params initVisitorState (p ++ q)).lm_IDs_to_optimize =
      (if 1 ≤ params.dont_optimize_landmarks_seen_less_than_n_times ∧
          params.dont_optimize_landmarks_seen_less_than_n_times ≤
            timesSeenRelevant lm (p ++ q)
       then 1 else 0) ∧
    (lm ∈ (runK2F params initVisitorState p).lm_IDs_to_optimize ↔
      1 ≤ params.dont_optimize_landmarks_seen_less_than_n_times ∧
      params.dont_optimize_landmarks_seen_less_than_n_times ≤
        timesSeenRelevant lm p) := by
  constructor
  · have h := (visit_k2f_fold_spec params hopt lm (p ++ q) initVisitorState).2
    rw [h]
    simp only [initVisitorState, List.count_nil]
    split_ifs <;> omega
  · have h := (visit_k2f_fold_spec params hopt lm p initVisitorState).2
    have hmem : lm ∈ (runK2F params initVisitorState p).lm_IDs_to_optimize ↔
        0 < List.count lm (runK2F params initVisitorState p).lm_IDs_to_optimize :=
      List.count_pos_iff.symm
    rw [hmem, h]
    simp only [initVisitorState, List.count_nil]
    split_ifs <;> omega

/-- Instantiation of the C4 theorem: threshold 2, landmark 5 seen three times
(twice within the prefix); it is appended exactly once, already within the
prefix. -/
theorem visit_k2f_threshold_once_witness :
    List.count 5 (runK2F
        { optimize_k2k_edges := true
          optimize_landmarks := true
          max_visitable_kf_id := 10
          dont_optimize_landmarks_seen_less_than_n_times := 2 }
        initVisitorState
        ([{ feat_has_known_rel_pos := false, feat_id := 5 },
          { feat_has_known_rel_pos := false, feat_id := 5 }] ++
         [{ feat_has_known_rel_pos := false, feat_id := 5 }])).lm_IDs_to_optimize = 1 ∧
    5 ∈ (runK2F
        { optimize_k2k_edges := true
          optimize_landmarks := true
          max_visitable_kf_id := 10
          dont_optimize_landmarks_seen_less_than_n_times := 2 }
        initVisitorState
        [{ feat_has_known_rel_pos := false, feat_id := 5 },
         { feat_has_known_rel_pos := false, feat_id := 5 }]).lm_IDs_to_optimize := by
  have h := visit_k2f_threshold_once
    { optimize_k2k_edges := true
      optimize_landmarks := true
      max_visitable_kf_id := 10
      dont_optimize_landmarks_seen_less_than_n_times := 2 }
    5
    [{ feat_has_known_rel_pos := false, feat_id := 5 },
     { feat_has_known_rel_pos := false, feat_id := 5 }]
    [{ feat_has_known_rel_pos := false, feat_id := 5 }]
    rfl
  exact ⟨by rw [h.1]; decide, h.2.mpr (by decide)⟩

/-- Membership in the neighbour list coincides with adjacency. -/
theorem mem_nbrs_iff {es : List (Nat × Nat)} {v u : Nat} :
    u ∈ nbrs es v ↔ adjacent es v u = true := by
  simp only [nbrs, adjacent, List.mem_append, List.mem_filterMap,
    List.any_eq_true, Bool.or_eq_true, Bool.and_eq_true, beq_iff_eq,
    Option.ite_none_right_eq_some, Option.some.injEq]
  constructor
  · rintro (⟨e, he, h1, h2⟩ | ⟨e, he, h1, h2⟩)
    · exact ⟨e, he, Or.inl ⟨h1, h2⟩⟩
    · exact ⟨e, he, Or.inr ⟨h2, h1⟩⟩
  · rintro ⟨e, he, ⟨h1, h2⟩ | ⟨h1, h2⟩⟩
    · exact Or.inl ⟨e, he, h1, h2⟩
    · exact Or.inr ⟨e, he, h2, h1⟩

/-- Adjacency through undirected kf2kf edges is symmetric. -/
theorem adjacent_symm {es : List (Nat × Nat)} {u v : Nat} :
    adjacent es u v = true ↔ adjacent es v u = true := by
  simp only [adjacent, List.any_eq_true, Bool.or_eq_true, Bool.and_eq_true,
    beq_iff_eq]
  constructor
  · rintro ⟨e, he, h | h⟩
    · exact ⟨e, he, Or.inr h⟩
    · exact ⟨e, he, Or.inl h⟩
  · rintro ⟨e, he, h | h⟩
    · exact ⟨e, he, Or.inr h⟩
    · exact ⟨e, he, Or.inl h⟩

/-- A keyframe is in the `k`-ball around the root exactly when some walk of at
most `k` edges reaches it. -/
theorem mem_ball_iff {es : List (Nat × Nat)} {r : Nat} :
    ∀ (k v : Nat), v ∈ ball es r k ↔ ∃ n, n ≤ k ∧ pathLen es r v n := by
  intro k
  induction k with
  | zero =>
      intro v
      simp only [ball, List.mem_singleton, Nat.le_zero]
      constructor
      · rintro rfl
        exact ⟨0, rfl, rfl⟩
      · rintro ⟨n, rfl, hp⟩
        have hp2 : r = v := hp
        exact hp2.symm
  | succ k ih =>
      intro v
      constructor
      · intro hv
        rw [ball] at hv
        rcases List.mem_append.mp hv with hv | hv
        · rcases (ih v).mp hv with ⟨n, hn, hp⟩
          exact ⟨n, Nat.le_succ_of_le hn, hp⟩
        · rcases List.mem_flatten.mp hv with ⟨l, hl, hvl⟩
          rcases List.mem_map.mp hl with ⟨w, hw, rfl⟩
          rcases (ih w).mp hw with ⟨n, hn, hp⟩
          refine ⟨n + 1, Nat.succ_le_succ hn, ?_⟩
          simp only [pathLen]
          exact ⟨w, hp, mem_nbrs_iff.mp hvl⟩
      · rintro ⟨n, hn, hp⟩
        rw [ball]
        by_cases hnk : n ≤ k
        · exact List.mem_append.mpr (Or.inl ((ih v).mpr ⟨n, hnk, hp⟩))
        · have hn1 : n = k + 1 := by omega
          subst hn1
          simp only [pathLen] at hp
          obtain ⟨w, hw, hadj⟩ := hp
          refine List.mem_append.mpr (Or.inr ?_)
          refine List.mem_flatten.mpr ⟨nbrs es w, ?_, mem_nbrs_iff.mpr hadj⟩
          exact List.mem_map.mpr ⟨w, (ih w).mpr ⟨k, le_refl k, hw⟩, rfl⟩

/-- What a successful `leastFrom` search returns: an index satisfying the
predicate, not before the start, with every earlier index failing it. -/
theorem leastFrom_spec (p : Nat → Bool) :
    ∀ (fuel i d : Nat), leastFrom p i fuel = some d →
      p d = true ∧ i ≤ d ∧ ∀ j, i ≤ j → j < d → p j = false := by
  intro fuel
  induction fuel with
  | zero =>
      intro i d h
      simp [leastFrom] at h
  | succ n ih =>
      intro i d h
      rw [leastFrom] at h
      by_cases hpi : p i = true
      · rw [if_pos hpi] at h
        have hid : i = d := Option.some.inj h
        subst hid
        exact ⟨hpi, le_refl i, fun j hj1 hj2 => absurd hj1 (by omega)⟩
      · have hpi2 : p i = false := by
          cases hb : p i
          · rfl
          · exact absurd hb hpi
        rw [if_neg hpi] at h
        obtain ⟨h1, h2, h3⟩ := ih (i + 1) d h
        refine ⟨h1, by omega, ?_⟩
        intro j hj1 hj2
        rcases Nat.eq_or_lt_of_le hj1 with rfl | hlt
        · exact hpi2
        · exact h3 j (by omega) hj2

/-- `leastFrom` finds some index whenever a witness lies within its range. -/
theorem leastFrom_complete (p : Nat → Bool) :
    ∀ (fuel i k : Nat), i ≤ k → k < i + fuel → p k = true →
      ∃ d, leastFrom p i fuel = some d ∧ d ≤ k := by
  intro fuel
  induction fuel with
  | zero =>
      intro i k h1 h2 h3
      omega
  | succ n ih =>
      intro i k h1 h2 h3
      by_cases hpi : p i = true
      · exact ⟨i, by rw [leastFrom, if_pos hpi], h1⟩
      · have hik : i ≠ k := by
          intro heq
          subst heq
          exact hpi h3
        obtain ⟨d, hd, hdk⟩ := ih (i + 1) k (by omega) (by omega) h3
        exact ⟨d, by rw [leastFrom, if_neg hpi]; exact hd, hdk⟩

/-- The minimum returned by `minList` is a member of the list. -/
theorem minList_mem : ∀ (l : List Nat) (m : Nat), minList l = some m → m ∈ l := by
  intro l
  induction l with
  | nil =>
      intro m h
      simp [minList] at h
  | cons x xs ih =>
      intro m h
      rw [minList] at h
      cases hxs : minList xs with
      | none =>
          rw [hxs] at h
          have hxm : x = m := Option.some.inj h
          subst hxm
          exact List.mem_cons_self x xs
      | some mm =>
          rw [hxs] at h
          have hm : Nat.min x mm = m := Option.some.inj h
          have hcase : m = x ∨ m = mm := by
            unfold Nat.min at hm
            rcases le_total x mm with hle | hle
            · rw [inf_eq_left.mpr hle] at hm
              exact Or.inl hm.symm
            · rw [inf_eq_right.mpr hle] at hm
              exact Or.inr hm.symm
          rcases hcase with rfl | rfl
          · exact List.mem_cons_self m xs
          · exact List.mem_cons_of_mem x (ih m hxs)

/-- `minList` returns a value on every nonempty list. -/
theorem minList_isSome : ∀ (l : List Nat), l ≠ [] → ∃ m, minList l = some m := by
  intro l h
  cases l with
  | nil => exact absurd rfl h
  | cons x xs =>
      cases h2 : minList xs with
      | none => exact ⟨x, by rw [minList, h2]⟩
      | some mm => exact ⟨Nat.min x mm, by rw [minList, h2]⟩

/-- C1: after `update_symbolic_new_node`, for every root keyframe `r` and
every keyframe `v` within `max_tree_depth` (`D`) edges of `r`, the
spanning-tree entry exists, its recorded distance is attained by a walk and is
no greater than any walk length (i.e. it equals the true shortest undirected
hop count, which is at most `D` here), and its recorded predecessor is
adjacent to `v` at true shortest distance exactly one less — hence it lies on
some shortest path from `r` to `v`. -/
theorem update_symbolic_shortest_paths (es : List (Nat × Nat)) (D r v n : Nat)
    (hn : n ≤ D) (hpath : pathLen es r v n) :
    ∃ d pr, update_symbolic_new_node es D r v = some (d, pr) ∧
      pathLen es r v d ∧
      (∀ m, pathLen es r v m → d ≤ m) ∧
      (∀ k, d = k + 1 →
        ∃ pd, pr = some pd ∧ adjacent es pd v = true ∧
          pathLen es r pd k ∧ (∀ m, pathLen es r pd m → k ≤ m)) := by
  have hvball : v ∈ ball es r n := (mem_ball_iff n v).mpr ⟨n, le_refl n, hpath⟩
  obtain ⟨d, hfind, hdn⟩ :=
    leastFrom_complete (fun k => decide (v ∈ ball es r k)) (D + 1) 0 n
      (Nat.zero_le n) (by omega) (by simp [hvball])
  obtain ⟨hpd, -, hmin⟩ :=
    leastFrom_spec (fun k => decide (v ∈ ball es r k)) (D + 1) 0 d hfind
  have hvd : v ∈ ball es r d := by simpa using hpd
  have hnotlt : ∀ j, j < d → v ∉ ball es r j := by
    intro j hj hmem
    have hfalse := hmin j (Nat.zero_le j) hj
    simp [hmem] at hfalse
  have hpathd : pathLen es r v d := by
    rcases (mem_ball_iff d v).mp hvd with ⟨m, hm, hpm⟩
    rcases Nat.eq_or_lt_of_le hm with rfl | hlt
    · exact hpm
    · exact absurd ((mem_ball_iff m v).mpr ⟨m, le_refl m, hpm⟩) (hnotlt m hlt)
  have hminimal : ∀ m, pathLen es r v m → d ≤ m := by
    intro m hpm
    by_contra hcon
    push_neg at hcon
    exact (hnotlt m hcon) ((mem_ball_iff m v).mpr ⟨m, le_refl m, hpm⟩)
  have htd : treeDist es D r v = some d := hfind
  refine ⟨d, treePred es D r v, ?_, hpathd, hminimal, ?_⟩
  · simp [update_symbolic_new_node, htd]
  · intro k hdk
    subst hdk
    have hpred : treePred es D r v =
        minList ((nbrs es v).filter (fun u => decide (u ∈ ball es r k))) := by
      simp [treePred, htd]
    have hpk : pathLen es r v (k + 1) := hpathd
    simp only [pathLen] at hpk
    obtain ⟨w, hw, hadj⟩ := hpk
    have hwball : w ∈ ball es r k := (mem_ball_iff k w).mpr ⟨k, le_refl k, hw⟩
    have hwc : w ∈ (nbrs es v).filter (fun u => decide (u ∈ ball es r k)) := by
      rw [List.mem_filter]
      exact ⟨mem_nbrs_iff.mpr (adjacent_symm.mp hadj), by simp [hwball]⟩
    obtain ⟨pd, hpd2⟩ := minList_isSome
      ((nbrs es v).filter (fun u => decide (u ∈ ball es r k)))
      (List.ne_nil_of_mem hwc)
    have hpdc := minList_mem
      ((nbrs es v).filter (fun u => decide (u ∈ ball es r k))) pd hpd2
    rw [List.mem_filter] at hpdc
    obtain ⟨hpdn, hpdb⟩ := hpdc
    have hpdball : pd ∈ ball es r k := by simpa using hpdb
    have hpdadj : adjacent es pd v = true := adjacent_symm.mp (mem_nbrs_iff.mp hpdn)
    have hpdpath : pathLen es r pd k := by
      rcases (mem_ball_iff k pd).mp hpdball with ⟨m, hm, hpm⟩
      rcases Nat.eq_or_lt_of_le hm with rfl | hlt
      · exact hpm
      · have hv1 : pathLen es r v (m + 1) := by
          simp only [pathLen]
          exact ⟨pd, hpm, hpdadj⟩
        have := hminimal (m + 1) hv1
        omega
    have hpdmin : ∀ m, pathLen es r pd m → k ≤ m := by
      intro m hpm
      have hv1 : pathLen es r v (m + 1) := by
        simp only [pathLen]
        exact ⟨pd, hpm, hpdadj⟩
      have := hminimal (m + 1) hv1
      omega
    exact ⟨pd, hpred.trans hpd2, hpdadj, hpdpath, hpdmin⟩

/-- Instantiation of the C1 theorem on the two-keyframe graph with the single
edge (0,1), depth bound 1, root 0, target keyframe 1. -/
theorem update_symbolic_shortest_paths_witness :
    pathLen [(0, 1)] 0 1 1 ∧
    (∃ d pr, update_symbolic_new_node [(0, 1)] 1 0 1 = some (d, pr) ∧
      pathLen [(0, 1)] 0 1 d ∧
      (∀ m, pathLen [(0, 1)] 0 1 m → d ≤ m) ∧
      (∀ k, d = k + 1 →
        ∃ pd, pr = some pd ∧ adjacent [(0, 1)] pd 1 = true ∧
          pathLen [(0, 1)] 0 pd k ∧ (∀ m, pathLen [(0, 1)] 0 pd m → k ≤ m))) := by
  have hp : pathLen [(0, 1)] 0 1 1 := by
    simp only [pathLen]
    exact ⟨0, rfl, by decide⟩
  exact ⟨hp, update_symbolic_shortest_paths [(0, 1)] 1 0 1 1 (le_refl 1) hp⟩
